import Mathlib

/-!
Verification of the Renko brick-synthesis engine
(`technical_analysis/models/renko.py`) against its specification.

Prices are modelled as exact rationals (`ℚ`); the brick size is an integer
(`int` in the source); timestamps are opaque naturals.  Python's `int(x)`
conversion truncates toward zero and Python's float `//` is floor division;
both are modelled explicitly below.
-/

/-- One OHLC candle (`datetime, open, high, low, close`); volume is unused by
the Renko engine. -/
structure Candle where
  date : ℕ
  open_ : ℚ
  high : ℚ
  low : ℚ
  close : ℚ

/-- One Renko brick, column order as in `Renko._RenkoColumnHeaders`:
`[datetime, open, high, low, close, uptrend]`. -/
structure Brick where
  date : ℕ
  open_ : ℚ
  high : ℚ
  low : ℚ
  close : ℚ
  uptrend : Bool

/-- Python `int(q)` on a real value: truncation toward zero. -/
def truncQ (q : ℚ) : ℤ := if q < 0 then ⌈q⌉ else ⌊q⌋

/-- `Renko.__calculate_signed_num_of_bricks`:
`int((curr_close - prev_close) / self.__brick_size)`. -/
def calculate_signed_num_of_bricks (brick_size : ℤ) (curr_close prev_close : ℚ) : ℤ :=
  truncQ ((curr_close - prev_close) / (brick_size : ℚ))

/-- `Renko.__continue_uptrend`: emits `n` up-bricks, advancing the local
`prev_close`/`prev_open` copies by `brick_size` per brick. -/
def continue_uptrend (brick_size : ℤ) (curr_date : ℕ) (curr_low : ℚ) :
    ℚ → ℚ → ℕ → List Brick
  | _, _, 0 => []
  | prev_close, prev_open, n + 1 =>
      ⟨curr_date, prev_close, prev_close + (brick_size : ℚ),
        min (max curr_low (prev_open - (brick_size : ℚ))) prev_close,
        prev_close + (brick_size : ℚ), true⟩ ::
      continue_uptrend brick_size curr_date curr_low
        (prev_close + (brick_size : ℚ)) (prev_open + (brick_size : ℚ)) n

/-- `Renko.__reverse_to_downtrend`. -/
def reverse_to_downtrend (brick_size : ℤ) (curr_date : ℕ) (curr_high : ℚ) :
    ℚ → ℚ → ℕ → List Brick
  | _, _, 0 => []
  | prev_close, prev_open, n + 1 =>
      ⟨curr_date, prev_open,
        max (min curr_high (prev_close + (brick_size : ℚ))) prev_open,
        prev_open - (brick_size : ℚ), prev_open - (brick_size : ℚ), false⟩ ::
      reverse_to_downtrend brick_size curr_date curr_high
        (prev_close - (brick_size : ℚ)) (prev_open - (brick_size : ℚ)) n

/-- `Renko.__continue_downtrend`. -/
def continue_downtrend (brick_size : ℤ) (curr_date : ℕ) (curr_high : ℚ) :
    ℚ → ℚ → ℕ → List Brick
  | _, _, 0 => []
  | prev_close, prev_open, n + 1 =>
      ⟨curr_date, prev_close,
        max (min curr_high (prev_open + (brick_size : ℚ))) prev_close,
        prev_close - (brick_size : ℚ), prev_close - (brick_size : ℚ), false⟩ ::
      continue_downtrend brick_size curr_date curr_high
        (prev_close - (brick_size : ℚ)) (prev_open - (brick_size : ℚ)) n

/-- `Renko.__reverse_to_uptrend`. -/
def reverse_to_uptrend (brick_size : ℤ) (curr_date : ℕ) (curr_low : ℚ) :
    ℚ → ℚ → ℕ → List Brick
  | _, _, 0 => []
  | prev_close, prev_open, n + 1 =>
      ⟨curr_date, prev_open, prev_open + (brick_size : ℚ),
        min (max curr_low (prev_close - (brick_size : ℚ))) prev_open,
        prev_open + (brick_size : ℚ), true⟩ ::
      reverse_to_uptrend brick_size curr_date curr_low
        (prev_close + (brick_size : ℚ)) (prev_open + (brick_size : ℚ)) n

/-- `Renko.__generate_next_bricks`: dispatch on `(uptrend, signed_num_bricks)`,
passing the brick counts `abs(signed)`, `abs(signed + 1)`, `abs(signed)`,
`abs(signed - 1)` respectively. -/
def generate_next_bricks (brick_size : ℤ) (curr_date : ℕ)
    (curr_high curr_low prev_close prev_open : ℚ) (uptrend : Bool)
    (signed_num_bricks : ℤ) : List Brick :=
  if uptrend = true ∧ 1 ≤ signed_num_bricks then
    continue_uptrend brick_size curr_date curr_low prev_close prev_open
      signed_num_bricks.natAbs
  else if uptrend = true ∧ signed_num_bricks ≤ -2 then
    reverse_to_downtrend brick_size curr_date curr_high prev_close prev_open
      (signed_num_bricks + 1).natAbs
  else if uptrend = false ∧ signed_num_bricks ≤ -1 then
    continue_downtrend brick_size curr_date curr_high prev_close prev_open
      signed_num_bricks.natAbs
  else if uptrend = false ∧ 2 ≤ signed_num_bricks then
    reverse_to_uptrend brick_size curr_date curr_low prev_close prev_open
      (signed_num_bricks - 1).natAbs
  else []

/-- `Renko.__get_initial_uptrend_renko_brick`: the seed brick from the first
candle; Python float `//` is floor division. -/
def get_initial_uptrend_renko_brick (brick_size : ℤ) (first : Candle) : Brick :=
  ⟨first.date,
    (⌊first.close / (brick_size : ℚ)⌋ : ℚ) * (brick_size : ℚ) - (brick_size : ℚ),
    (⌊first.close / (brick_size : ℚ)⌋ : ℚ) * (brick_size : ℚ),
    min first.low ((⌊first.close / (brick_size : ℚ)⌋ : ℚ) * (brick_size : ℚ) - (brick_size : ℚ)),
    (⌊first.close / (brick_size : ℚ)⌋ : ℚ) * (brick_size : ℚ),
    true⟩

/-- One iteration of the loop body of `Renko.get_renko`: the previous brick is
`renko_df.iloc[-1]`, the candle supplies date, high, low and close. -/
def step (brick_size : ℤ) (prev : Brick) (candle : Candle) : List Brick :=
  generate_next_bricks brick_size candle.date candle.high candle.low
    prev.close prev.open_ prev.uptrend
    (calculate_signed_num_of_bricks brick_size candle.close prev.close)

/-- The loop of `Renko.get_renko`: bricks are appended candle by candle; the
last accumulated brick (initially the seed) is the carried state. -/
def process (brick_size : ℤ) : Brick → List Candle → List Brick
  | _, [] => []
  | last, c :: cs =>
      step brick_size last c ++
        process brick_size ((step brick_size last c).getLastD last) cs

/-- `Renko.get_renko`: seed brick from the first candle, then the loop over
the whole candle dataframe (the first candle included). -/
def get_renko (brick_size : ℤ) : List Candle → List Brick
  | [] => []
  | c :: cs =>
      get_initial_uptrend_renko_brick brick_size c ::
        process brick_size (get_initial_uptrend_renko_brick brick_size c) (c :: cs)

/-- Trend consistency of a single brick (§3 of the spec). -/
def TrendConsistent (brick_size : ℤ) (b : Brick) : Prop :=
  (b.uptrend = true → b.close = b.open_ + (brick_size : ℚ)) ∧
  (b.uptrend = false → b.close = b.open_ - (brick_size : ℚ))

/-- Monotonic-chaining relation between two chronologically consecutive
bricks: next open equals previous close, except across a trend flip, where it
equals the previous open. -/
def ChainedOpen (b b' : Brick) : Prop :=
  (b'.uptrend = b.uptrend → b'.open_ = b.close) ∧
  (b'.uptrend ≠ b.uptrend → b'.open_ = b.open_)

/-- Close-to-close movement between two chronologically consecutive bricks:
one brick size in the trend direction, except across a trend flip, where the
close jumps by two brick sizes. -/
def CloseStep (brick_size : ℤ) (b b' : Brick) : Prop :=
  (b'.uptrend = b.uptrend →
    b'.close - b.close = (if b'.uptrend = true then (brick_size : ℚ) else -(brick_size : ℚ))) ∧
  (b'.uptrend ≠ b.uptrend →
    b'.close - b.close =
      (if b'.uptrend = true then 2 * (brick_size : ℚ) else -(2 * (brick_size : ℚ))))

/-- Conjunction of the two pairwise invariants, used for one common
induction over the synthesizer. -/
def BrickPair (brick_size : ℤ) (b b' : Brick) : Prop :=
  ChainedOpen b b' ∧ CloseStep brick_size b b'

/-- `CandlespanEnum` (`enums/candlespan.py`). -/
inductive CandlespanEnum
  | DAILY
  | WEEKLY
  | MONTHLY

/-- The true range of one candle given its predecessor:
`max(H-L, |H-PC|, |L-PC|)` as in `IndicatorCalculator.atr`. -/
def true_range (prev curr : Candle) : ℚ :=
  max (curr.high - curr.low) (max |curr.high - prev.close| |curr.low - prev.close|)

/-- The `TR` column for every candle after the first. -/
def tr_list_from (prev : Candle) : List Candle → List (Option ℚ)
  | [] => []
  | c :: cs => some (true_range prev c) :: tr_list_from c cs

/-- The `TR` column of `IndicatorCalculator.atr`: the first row is missing
(`shift(1)` yields no previous close, and `max` with `skipna=False`
propagates the hole). -/
def tr_list : List Candle → List (Option ℚ)
  | [] => []
  | c :: cs => none :: tr_list_from c cs

/-- Pandas exponentially weighted mean, `adjust=True`, `ignore_na=False`:
running weighted numerator and denominator decay by `1 - alpha` each row;
a present row adds its value with weight one; the output is present once at
least `min_periods` observations have been seen. -/
def ewm_go (decay : ℚ) (min_periods : ℕ) :
    ℚ → ℚ → ℕ → List (Option ℚ) → List (Option ℚ)
  | _, _, _, [] => []
  | num, den, cnt, some v :: xs =>
      (if min_periods ≤ cnt + 1 then some ((decay * num + v) / (decay * den + 1)) else none) ::
        ewm_go decay min_periods (decay * num + v) (decay * den + 1) (cnt + 1) xs
  | num, den, cnt, none :: xs =>
      (if min_periods ≤ cnt then some ((decay * num) / (decay * den)) else none) ::
        ewm_go decay min_periods (decay * num) (decay * den) cnt xs

/-- `Series.ewm(span=span, min_periods=min_periods).mean()` with
`alpha = 2 / (span + 1)`. -/
def ewm_mean (span : ℕ) (min_periods : ℕ) (xs : List (Option ℚ)) : List (Option ℚ) :=
  ewm_go (1 - 2 / ((span : ℚ) + 1)) min_periods 0 0 0 xs

/-- The `atr` column of `IndicatorCalculator.atr`:
`TR.ewm(span=window, min_periods=window).mean()`. -/
def atr (candles : List Candle) (window : ℕ) : List (Option ℚ) :=
  ewm_mean window window (tr_list candles)

/-- Python 3 `round` to an integer: nearest integer, ties to even. -/
def pyRound (q : ℚ) : ℤ :=
  if q - (⌊q⌋ : ℚ) < 1 / 2 then ⌊q⌋
  else if 1 / 2 < q - (⌊q⌋ : ℚ) then ⌊q⌋ + 1
  else if 2 ∣ ⌊q⌋ then ⌊q⌋ else ⌊q⌋ + 1

/-- `Renko.__get_brick_size_from_atr`: `3 * round(atr.iloc[-1])`; missing if
the frame is empty or the last ATR value is missing (Python raises there). -/
def get_brick_size_from_atr (candles : List Candle) (periods : ℕ) : Option ℤ :=
  match (atr candles periods).getLast? with
  | some (some v) => some (3 * pyRound v)
  | _ => none

/-- The failure modes of `Renko.__init__` (each a `ValueError` or a numeric
error in the source). -/
inductive RenkoError
  | mutuallyExclusiveArgs
  | invalidInstrument
  | atrUndefined

/-- The count of non-`None` values among the two mutually exclusive
constructor arguments, as in `mutually_exclusive_args` (`utils/decorators.py`). -/
def provided_count (brick_size_from_atr_of : Option (CandlespanEnum × ℕ))
    (brick_size : Option ℤ) : ℕ :=
  (if brick_size_from_atr_of.isSome then 1 else 0) +
    (if brick_size.isSome then 1 else 0)

/-- `Renko.__init__` under the `mutually_exclusive_args` decorator: the
exclusivity check runs first (before the wrapped body, hence before the
instrument check and before any candle fetching), then
`__raise_if_invalid_instrument`, then brick-size resolution.  `fetch` stands
for the candle source used by the ATR path. -/
def renko_init (is_instrument_valid : Bool) (fetch : CandlespanEnum → List Candle)
    (brick_size_from_atr_of : Option (CandlespanEnum × ℕ)) (brick_size : Option ℤ) :
    Except RenkoError ℤ :=
  if provided_count brick_size_from_atr_of brick_size ≠ 1 then
    .error .mutuallyExclusiveArgs
  else if is_instrument_valid = false then
    .error .invalidInstrument
  else
    match brick_size, brick_size_from_atr_of with
    | some b, _ => .ok b
    | none, some (span, periods) =>
        match get_brick_size_from_atr (fetch span) periods with
        | some b => .ok b
        | none => .error .atrUndefined
    | none, none => .error .mutuallyExclusiveArgs

/-- Modelled from the spec: the variant of `get_renko` that applies the
transition rules only to the candles after the first (the seed candle is not
re-processed).  This is the comparison point of the refinement claim. -/
def get_renko_skipping_first (brick_size : ℤ) : List Candle → List Brick
  | [] => []
  | c :: cs =>
      get_initial_uptrend_renko_brick brick_size c ::
        process brick_size (get_initial_uptrend_renko_brick brick_size c) cs

/-! ### Helper lemmas -/

lemma chain_append_getLastD {α : Type} (R : α → α → Prop) :
    ∀ (l₁ : List α) (a : α) {l₂ : List α}, List.Chain R a l₁ →
      List.Chain R (l₁.getLastD a) l₂ → List.Chain R a (l₁ ++ l₂) := by
  intro l₁
  induction l₁ with
  | nil => intro a l₂ _ h2; simpa using h2
  | cons b l ih =>
    intro a l₂ h1 h2
    rcases List.chain_cons.mp h1 with ⟨hab, hbl⟩
    rw [List.getLastD_cons] at h2
    exact List.Chain.cons hab (ih b hbl h2)

lemma getLastD_eq_self_or_mem {α : Type} :
    ∀ (l : List α) (a : α), l.getLastD a = a ∨ l.getLastD a ∈ l := by
  intro l
  induction l with
  | nil => intro a; left; rfl
  | cons b l ih =>
    intro a
    rw [List.getLastD_cons]
    rcases ih b with h | h
    · right; rw [h]; exact List.mem_cons_self b l
    · right; exact List.mem_cons_of_mem b h

lemma trendConsistent_up (bs : ℤ) (d : ℕ) (o h l : ℚ) :
    TrendConsistent bs ⟨d, o, h, l, o + (bs : ℚ), true⟩ :=
  ⟨fun _ => rfl, fun hf => Bool.noConfusion hf⟩

lemma trendConsistent_down (bs : ℤ) (d : ℕ) (o h l : ℚ) :
    TrendConsistent bs ⟨d, o, h, l, o - (bs : ℚ), false⟩ :=
  ⟨fun ht => Bool.noConfusion ht, fun _ => rfl⟩

lemma brickPair_same_up (bs : ℤ) (last : Brick) (hu : last.uptrend = true)
    (d : ℕ) (h l : ℚ) :
    BrickPair bs last ⟨d, last.close, h, l, last.close + (bs : ℚ), true⟩ := by
  refine ⟨⟨fun _ => rfl, fun hne => absurd (by rw [hu]) hne⟩,
    ⟨fun _ => by simp, fun hne => absurd (by rw [hu]) hne⟩⟩

lemma brickPair_same_down (bs : ℤ) (last : Brick) (hu : last.uptrend = false)
    (d : ℕ) (h : ℚ) :
    BrickPair bs last
      ⟨d, last.close, h, last.close - (bs : ℚ), last.close - (bs : ℚ), false⟩ := by
  refine ⟨⟨fun _ => rfl, fun hne => absurd (by rw [hu]) hne⟩,
    ⟨fun _ => by simp, fun hne => absurd (by rw [hu]) hne⟩⟩

lemma brickPair_flip_down (bs : ℤ) (last : Brick) (hu : last.uptrend = true)
    (hc : last.close = last.open_ + (bs : ℚ)) (d : ℕ) (h : ℚ) :
    BrickPair bs last
      ⟨d, last.open_, h, last.open_ - (bs : ℚ), last.open_ - (bs : ℚ), false⟩ := by
  refine ⟨⟨fun heq => absurd heq (by rw [hu]; exact Bool.false_ne_true), fun _ => rfl⟩,
    ⟨fun heq => absurd heq (by rw [hu]; exact Bool.false_ne_true), fun _ => ?_⟩⟩
  rw [hc]
  simp
  ring

lemma brickPair_flip_up (bs : ℤ) (last : Brick) (hu : last.uptrend = false)
    (hc : last.close = last.open_ - (bs : ℚ)) (d : ℕ) (l : ℚ) :
    BrickPair bs last
      ⟨d, last.open_, last.open_ + (bs : ℚ), l, last.open_ + (bs : ℚ), true⟩ := by
  refine ⟨⟨fun heq => absurd heq (by rw [hu]; simp), fun _ => rfl⟩,
    ⟨fun heq => absurd heq (by rw [hu]; simp), fun _ => ?_⟩⟩
  rw [hc]
  simp
  ring

lemma continue_uptrend_spec (bs : ℤ) (d : ℕ) (cl : ℚ) :
    ∀ (n : ℕ) (po : ℚ) (last : Brick), last.uptrend = true →
      List.Chain (BrickPair bs) last (continue_uptrend bs d cl last.close po n) ∧
      ∀ b ∈ continue_uptrend bs d cl last.close po n, TrendConsistent bs b := by
  intro n
  induction n with
  | zero => intro po last _; exact ⟨List.Chain.nil, by simp [continue_uptrend]⟩
  | succ n ih =>
    intro po last hu
    obtain ⟨ihc, ihm⟩ := ih (po + (bs : ℚ))
      ⟨d, last.close, last.close + (bs : ℚ),
        min (max cl (po - (bs : ℚ))) last.close, last.close + (bs : ℚ), true⟩ rfl
    simp only [continue_uptrend]
    refine ⟨List.Chain.cons (brickPair_same_up bs last hu d _ _) ihc, ?_⟩
    intro b hb
    rcases List.mem_cons.mp hb with h | h
    · rw [h]; exact trendConsistent_up bs d last.close _ _
    · exact ihm b h

lemma continue_downtrend_spec (bs : ℤ) (d : ℕ) (ch : ℚ) :
    ∀ (n : ℕ) (po : ℚ) (last : Brick), last.uptrend = false →
      List.Chain (BrickPair bs) last (continue_downtrend bs d ch last.close po n) ∧
      ∀ b ∈ continue_downtrend bs d ch last.close po n, TrendConsistent bs b := by
  intro n
  induction n with
  | zero => intro po last _; exact ⟨List.Chain.nil, by simp [continue_downtrend]⟩
  | succ n ih =>
    intro po last hu
    obtain ⟨ihc, ihm⟩ := ih (po - (bs : ℚ))
      ⟨d, last.close, max (min ch (po + (bs : ℚ))) last.close,
        last.close - (bs : ℚ), last.close - (bs : ℚ), false⟩ rfl
    simp only [continue_downtrend]
    refine ⟨List.Chain.cons (brickPair_same_down bs last hu d _) ihc, ?_⟩
    intro b hb
    rcases List.mem_cons.mp hb with h | h
    · rw [h]; exact trendConsistent_down bs d last.close _ _
    · exact ihm b h

lemma reverse_to_downtrend_rec (bs : ℤ) (d : ℕ) (ch : ℚ) :
    ∀ (n : ℕ) (pc : ℚ) (last : Brick), last.uptrend = false →
      List.Chain (BrickPair bs) last (reverse_to_downtrend bs d ch pc last.close n) ∧
      ∀ b ∈ reverse_to_downtrend bs d ch pc last.close n, TrendConsistent bs b := by
  intro n
  induction n with
  | zero => intro pc last _; exact ⟨List.Chain.nil, by simp [reverse_to_downtrend]⟩
  | succ n ih =>
    intro pc last hu
    obtain ⟨ihc, ihm⟩ := ih (pc - (bs : ℚ))
      ⟨d, last.close, max (min ch (pc + (bs : ℚ))) last.close,
        last.close - (bs : ℚ), last.close - (bs : ℚ), false⟩ rfl
    simp only [reverse_to_downtrend]
    refine ⟨List.Chain.cons (brickPair_same_down bs last hu d _) ihc, ?_⟩
    intro b hb
    rcases List.mem_cons.mp hb with h | h
    · rw [h]; exact trendConsistent_down bs d last.close _ _
    · exact ihm b h

lemma reverse_to_downtrend_spec (bs : ℤ) (d : ℕ) (ch : ℚ)
    (n : ℕ) (pc : ℚ) (last : Brick) (hu : last.uptrend = true)
    (hc : last.close = last.open_ + (bs : ℚ)) :
    List.Chain (BrickPair bs) last (reverse_to_downtrend bs d ch pc last.open_ n) ∧
      ∀ b ∈ reverse_to_downtrend bs d ch pc last.open_ n, TrendConsistent bs b := by
  cases n with
  | zero => exact ⟨List.Chain.nil, by simp [reverse_to_downtrend]⟩
  | succ n =>
    obtain ⟨ihc, ihm⟩ := reverse_to_downtrend_rec bs d ch n (pc - (bs : ℚ))
      ⟨d, last.open_, max (min ch (pc + (bs : ℚ))) last.open_,
        last.open_ - (bs : ℚ), last.open_ - (bs : ℚ), false⟩ rfl
    simp only [reverse_to_downtrend]
    refine ⟨List.Chain.cons (brickPair_flip_down bs last hu hc d _) ihc, ?_⟩
    intro b hb
    rcases List.mem_cons.mp hb with h | h
    · rw [h]; exact trendConsistent_down bs d last.open_ _ _
    · exact ihm b h

lemma reverse_to_uptrend_rec (bs : ℤ) (d : ℕ) (cl : ℚ) :
    ∀ (n : ℕ) (pc : ℚ) (last : Brick), last.uptrend = true →
      List.Chain (BrickPair bs) last (reverse_to_uptrend bs d cl pc last.close n) ∧
      ∀ b ∈ reverse_to_uptrend bs d cl pc last.close n, TrendConsistent bs b := by
  intro n
  induction n with
  | zero => intro pc last _; exact ⟨List.Chain.nil, by simp [reverse_to_uptrend]⟩
  | succ n ih =>
    intro pc last hu
    obtain ⟨ihc, ihm⟩ := ih (pc + (bs : ℚ))
      ⟨d, last.close, last.close + (bs : ℚ),
        min (max cl (pc - (bs : ℚ))) last.close, last.close + (bs : ℚ), true⟩ rfl
    simp only [reverse_to_uptrend]
    refine ⟨List.Chain.cons (brickPair_same_up bs last hu d _ _) ihc, ?_⟩
    intro b hb
    rcases List.mem_cons.mp hb with h | h
    · rw [h]; exact trendConsistent_up bs d last.close _ _
    · exact ihm b h

lemma reverse_to_uptrend_spec (bs : ℤ) (d : ℕ) (cl : ℚ)
    (n : ℕ) (pc : ℚ) (last : Brick) (hu : last.uptrend = false)
    (hc : last.close = last.open_ - (bs : ℚ)) :
    List.Chain (BrickPair bs) last (reverse_to_uptrend bs d cl pc last.open_ n) ∧
      ∀ b ∈ reverse_to_uptrend bs d cl pc last.open_ n, TrendConsistent bs b := by
  cases n with
  | zero => exact ⟨List.Chain.nil, by simp [reverse_to_uptrend]⟩
  | succ n =>
    obtain ⟨ihc, ihm⟩ := reverse_to_uptrend_rec bs d cl n (pc + (bs : ℚ))
      ⟨d, last.open_, last.open_ + (bs : ℚ),
        min (max cl (pc - (bs : ℚ))) last.open_, last.open_ + (bs : ℚ), true⟩ rfl
    simp only [reverse_to_uptrend]
    refine ⟨List.Chain.cons (brickPair_flip_up bs last hu hc d _) ihc, ?_⟩
    intro b hb
    rcases List.mem_cons.mp hb with h | h
    · rw [h]; exact trendConsistent_up bs d last.open_ _ _
    · exact ihm b h

lemma step_spec (bs : ℤ) (last : Brick) (c : Candle) (hlast : TrendConsistent bs last) :
    List.Chain (BrickPair bs) last (step bs last c) ∧
      ∀ b ∈ step bs last c, TrendConsistent bs b := by
  unfold step generate_next_bricks
  split_ifs with h1 h2 h3 h4
  · exact continue_uptrend_spec bs c.date c.low _ last.open_ last h1.1
  · exact reverse_to_downtrend_spec bs c.date c.high _ last.close last h2.1 (hlast.1 h2.1)
  · exact continue_downtrend_spec bs c.date c.high _ last.open_ last h3.1
  · exact reverse_to_uptrend_spec bs c.date c.low _ last.close last h4.1 (hlast.2 h4.1)
  · exact ⟨List.Chain.nil, by simp⟩

lemma process_spec (bs : ℤ) :
    ∀ (cs : List Candle) (last : Brick), TrendConsistent bs last →
      List.Chain (BrickPair bs) last (process bs last cs) ∧
      ∀ b ∈ process bs last cs, TrendConsistent bs b := by
  intro cs
  induction cs with
  | nil => intro last _; exact ⟨List.Chain.nil, by simp [process]⟩
  | cons c cs ih =>
    intro last hlast
    obtain ⟨hch, hmem⟩ := step_spec bs last c hlast
    have hlast' : TrendConsistent bs ((step bs last c).getLastD last) := by
      rcases getLastD_eq_self_or_mem (step bs last c) last with h | h
      · rw [h]; exact hlast
      · exact hmem _ h
    obtain ⟨hch2, hmem2⟩ := ih ((step bs last c).getLastD last) hlast'
    refine ⟨chain_append_getLastD _ _ _ hch hch2, ?_⟩
    intro b hb
    rcases List.mem_append.mp hb with h | h
    · exact hmem b h
    · exact hmem2 b h

lemma trendConsistent_initial (bs : ℤ) (c : Candle) :
    TrendConsistent bs (get_initial_uptrend_renko_brick bs c) := by
  refine ⟨fun _ => ?_, fun hf => Bool.noConfusion hf⟩
  show (⌊c.close / (bs : ℚ)⌋ : ℚ) * (bs : ℚ) =
    (⌊c.close / (bs : ℚ)⌋ : ℚ) * (bs : ℚ) - (bs : ℚ) + (bs : ℚ)
  ring

lemma get_renko_spec (bs : ℤ) (candles : List Candle) :
    List.Chain' (BrickPair bs) (get_renko bs candles) ∧
      ∀ b ∈ get_renko bs candles, TrendConsistent bs b := by
  cases candles with
  | nil => exact ⟨trivial, by simp [get_renko]⟩
  | cons c cs =>
    obtain ⟨hch, hmem⟩ := process_spec bs (c :: cs)
      (get_initial_uptrend_renko_brick bs c) (trendConsistent_initial bs c)
    refine ⟨hch, ?_⟩
    intro b hb
    rcases List.mem_cons.mp hb with h | h
    · rw [h]; exact trendConsistent_initial bs c
    · exact hmem b h

lemma truncQ_of_nonneg (q : ℚ) (h : 0 ≤ q) : truncQ q = ⌊q⌋ := if_neg (not_lt.mpr h)

lemma truncQ_of_neg (q : ℚ) (h : q < 0) : truncQ q = ⌈q⌉ := if_pos h

/-! ### Concrete evaluations shared by several witnesses -/

lemma eval_signed_zero : calculate_signed_num_of_bricks 10 100 100 = 0 := by
  rw [calculate_signed_num_of_bricks, truncQ_of_nonneg _ (by norm_num)]
  norm_num

lemma eval_signed_up : calculate_signed_num_of_bricks 10 125 100 = 2 := by
  rw [calculate_signed_num_of_bricks, truncQ_of_nonneg _ (by norm_num)]
  push_cast
  rw [show ((125 : ℚ) - 100) / 10 = 5 / 2 by norm_num]
  rw [Int.floor_eq_iff]
  constructor
  · norm_num
  · norm_num

lemma eval_signed_down : calculate_signed_num_of_bricks 10 95 120 = -2 := by
  rw [calculate_signed_num_of_bricks, truncQ_of_neg _ (by norm_num)]
  push_cast
  rw [show ((95 : ℚ) - 120) / 10 = -(5 / 2) by norm_num]
  rw [Int.ceil_eq_iff]
  constructor
  · norm_num
  · norm_num

lemma eval_seed : get_initial_uptrend_renko_brick 10 (⟨0, 100, 101, 99, 100⟩ : Candle) =
    (⟨0, 90, 100, 90, 100, true⟩ : Brick) := by
  rw [get_initial_uptrend_renko_brick]
  norm_num

lemma eval_step_noop :
    step 10 (⟨0, 90, 100, 90, 100, true⟩ : Brick) (⟨0, 100, 101, 99, 100⟩ : Candle) = [] := by
  show generate_next_bricks 10 0 101 99 100 90 true (calculate_signed_num_of_bricks 10 100 100) = []
  rw [eval_signed_zero, generate_next_bricks]
  norm_num

lemma eval_gen_up :
    generate_next_bricks 10 1 126 99 100 90 true (calculate_signed_num_of_bricks 10 125 100) =
      [⟨1, 100, 110, 99, 110, true⟩, ⟨1, 110, 120, 99, 120, true⟩] := by
  rw [eval_signed_up, generate_next_bricks, if_pos ⟨rfl, by norm_num⟩]
  show continue_uptrend 10 1 99 100 90 2 = _
  rw [continue_uptrend, continue_uptrend, continue_uptrend]
  norm_num

lemma eval_gen_down :
    generate_next_bricks 10 2 121 94 120 110 true (calculate_signed_num_of_bricks 10 95 120) =
      [⟨2, 110, 121, 100, 100, false⟩] := by
  rw [eval_signed_down, generate_next_bricks, if_neg (by norm_num), if_pos ⟨rfl, by norm_num⟩]
  show reverse_to_downtrend 10 2 121 120 110 1 = _
  rw [reverse_to_downtrend, reverse_to_downtrend]
  norm_num

lemma eval_renko_single :
    get_renko 10 [⟨0, 100, 101, 99, 100⟩] = [⟨0, 90, 100, 90, 100, true⟩] := by
  show get_renko 10 (⟨0, 100, 101, 99, 100⟩ :: []) = _
  rw [get_renko, eval_seed, process, eval_step_noop]
  rfl

/-- The candle sequence of the reversal counterexample: seed at close 100,
two up-bricks from close 125, then one reversal brick from close 95. -/
def cexCandles : List Candle :=
  [⟨0, 100, 101, 99, 100⟩, ⟨1, 100, 126, 99, 125⟩, ⟨2, 120, 121, 94, 95⟩]

lemma cex_renko : get_renko 10 cexCandles =
    [⟨0, 90, 100, 90, 100, true⟩, ⟨1, 100, 110, 99, 110, true⟩,
      ⟨1, 110, 120, 99, 120, true⟩, ⟨2, 110, 121, 100, 100, false⟩] := by
  have e2 : step 10 (⟨0, 90, 100, 90, 100, true⟩ : Brick) (⟨1, 100, 126, 99, 125⟩ : Candle) =
      [⟨1, 100, 110, 99, 110, true⟩, ⟨1, 110, 120, 99, 120, true⟩] := eval_gen_up
  have e3 : step 10 (⟨1, 110, 120, 99, 120, true⟩ : Brick) (⟨2, 120, 121, 94, 95⟩ : Candle) =
      [⟨2, 110, 121, 100, 100, false⟩] := eval_gen_down
  show get_renko 10
      (⟨0, 100, 101, 99, 100⟩ :: ⟨1, 100, 126, 99, 125⟩ :: ⟨2, 120, 121, 94, 95⟩ :: []) = _
  rw [get_renko, eval_seed]
  rw [process, eval_step_noop]
  rw [show List.getLastD ([] : List Brick) (⟨0, 90, 100, 90, 100, true⟩ : Brick) =
    ⟨0, 90, 100, 90, 100, true⟩ from rfl]
  rw [process, e2]
  rw [show List.getLastD [(⟨1, 100, 110, 99, 110, true⟩ : Brick), ⟨1, 110, 120, 99, 120, true⟩]
    (⟨0, 90, 100, 90, 100, true⟩ : Brick) = ⟨1, 110, 120, 99, 120, true⟩ from rfl]
  rw [process, e3]
  rw [show List.getLastD [(⟨2, 110, 121, 100, 100, false⟩ : Brick)]
    (⟨1, 110, 120, 99, 120, true⟩ : Brick) = ⟨2, 110, 121, 100, 100, false⟩ from rfl]
  rw [process]
  rfl

/-! ### Claim theorems -/

/-- C1: every brick of a produced Renko series (seed included) satisfies the
trend-consistency equations, and consequently the absolute body height of
every brick is exactly the brick size. -/
theorem renko_brick_size_invariant (bs : ℤ) (hbs : 0 < bs) (candles : List Candle)
    (b : Brick) (hb : b ∈ get_renko bs candles) :
    (b.uptrend = true → b.close = b.open_ + (bs : ℚ)) ∧
    (b.uptrend = false → b.close = b.open_ - (bs : ℚ)) ∧
    |b.close - b.open_| = (bs : ℚ) := by
  obtain ⟨h1, h2⟩ := (get_renko_spec bs candles).2 b hb
  have hbq : (0 : ℚ) ≤ (bs : ℚ) := by exact_mod_cast hbs.le
  refine ⟨h1, h2, ?_⟩
  cases hu : b.uptrend
  · rw [h2 hu]
    rw [show b.open_ - (bs : ℚ) - b.open_ = -(bs : ℚ) by ring]
    rw [abs_neg, abs_of_nonneg hbq]
  · rw [h1 hu]
    rw [show b.open_ + (bs : ℚ) - b.open_ = (bs : ℚ) by ring]
    rw [abs_of_nonneg hbq]

/-- C1 witness: the invariant instantiated at the seed brick of a concrete
one-candle run with brick size 10. -/
theorem renko_brick_size_invariant_witness :
    (0 : ℤ) < 10 ∧
    (⟨0, 90, 100, 90, 100, true⟩ : Brick) ∈ get_renko 10 [⟨0, 100, 101, 99, 100⟩] ∧
    |(⟨0, 90, 100, 90, 100, true⟩ : Brick).close - (⟨0, 90, 100, 90, 100, true⟩ : Brick).open_| =
      ((10 : ℤ) : ℚ) := by
  have hmem : (⟨0, 90, 100, 90, 100, true⟩ : Brick) ∈ get_renko 10 [⟨0, 100, 101, 99, 100⟩] := by
    rw [eval_renko_single]
    exact List.mem_singleton.mpr rfl
  exact ⟨by norm_num, hmem,
    (renko_brick_size_invariant 10 (by norm_num) [⟨0, 100, 101, 99, 100⟩] _ hmem).2.2⟩

/-- C7: in every produced series, each brick opens at the previous brick's
close, except the first brick of a reversal (where the trend flips), which
opens at the previous brick's open. -/
theorem renko_monotonic_chaining (bs : ℤ) (candles : List Candle) :
    List.Chain' ChainedOpen (get_renko bs candles) :=
  List.Chain'.imp (fun _ _ h => h.1) (get_renko_spec bs candles).1

/-- C3 counterexample: in a concrete run with brick size 10, opening at the
reversal the close jumps by two brick sizes, so the claimed close-to-close
step of exactly one brick size fails. -/
theorem renko_close_step_counterexample :
    ¬ List.Chain'
      (fun b b' => b'.close - b.close = ((10 : ℤ) : ℚ) ∨ b'.close - b.close = -((10 : ℤ) : ℚ))
      (get_renko 10 cexCandles) := by
  rw [cex_renko]
  intro h
  have h3 := (List.chain'_cons.mp (List.chain'_cons.mp (List.chain'_cons.mp h).2).2).1
  norm_num at h3

/-- C3 amended: the close-to-close step between consecutive bricks is exactly
one brick size in the trend direction while the trend is unchanged, and
exactly two brick sizes in the new direction across a trend reversal. -/
theorem renko_close_step_amended (bs : ℤ) (candles : List Candle) :
    List.Chain' (CloseStep bs) (get_renko bs candles) :=
  List.Chain'.imp (fun _ _ h => h.2) (get_renko_spec bs candles).1

/-- C2: the signed brick count is the quotient truncated toward zero, hence
one more than the floor on negative non-integer quotients; concretely, from
last close 120 in an uptrend with brick size 10, a candle closing at 95 gives
signed count -2 and exactly one reversal brick is emitted. -/
theorem signed_bricks_truncation (bs : ℤ) (c p : ℚ)
    (hneg : (c - p) / (bs : ℚ) < 0)
    (hnint : ((⌊(c - p) / (bs : ℚ)⌋ : ℤ) : ℚ) ≠ (c - p) / (bs : ℚ)) :
    calculate_signed_num_of_bricks bs c p = ⌊(c - p) / (bs : ℚ)⌋ + 1 ∧
    calculate_signed_num_of_bricks 10 95 120 = -2 ∧
    generate_next_bricks 10 2 121 94 120 110 true (calculate_signed_num_of_bricks 10 95 120) =
      [⟨2, 110, 121, 100, 100, false⟩] := by
  refine ⟨?_, eval_signed_down, eval_gen_down⟩
  rw [calculate_signed_num_of_bricks, truncQ_of_neg _ hneg]
  have h1 : ⌊(c - p) / (bs : ℚ)⌋ < ⌈(c - p) / (bs : ℚ)⌉ :=
    Int.lt_ceil.mpr (lt_of_le_of_ne (Int.floor_le _) hnint)
  have h2 : ⌈(c - p) / (bs : ℚ)⌉ ≤ ⌊(c - p) / (bs : ℚ)⌋ + 1 :=
    Int.ceil_le_floor_add_one _
  omega

/-- C2 witness: hypotheses and conclusion at brick size 10, candle close 95,
previous brick close 120 (quotient -5/2). -/
theorem signed_bricks_truncation_witness :
    ((95 : ℚ) - 120) / ((10 : ℤ) : ℚ) < 0 ∧
    ((⌊((95 : ℚ) - 120) / ((10 : ℤ) : ℚ)⌋ : ℤ) : ℚ) ≠ ((95 : ℚ) - 120) / ((10 : ℤ) : ℚ) ∧
    calculate_signed_num_of_bricks 10 95 120 = ⌊((95 : ℚ) - 120) / ((10 : ℤ) : ℚ)⌋ + 1 := by
  have hfl : ⌊((95 : ℚ) - 120) / ((10 : ℤ) : ℚ)⌋ = -3 := by
    push_cast
    rw [show ((95 : ℚ) - 120) / 10 = -(5 / 2) by norm_num]
    rw [Int.floor_eq_iff]
    constructor
    · norm_num
    · norm_num
  have hneg : ((95 : ℚ) - 120) / ((10 : ℤ) : ℚ) < 0 := by push_cast; norm_num
  have hnint : ((⌊((95 : ℚ) - 120) / ((10 : ℤ) : ℚ)⌋ : ℤ) : ℚ) ≠ ((95 : ℚ) - 120) / ((10 : ℤ) : ℚ) := by
    rw [hfl]
    push_cast
    norm_num
  exact ⟨hneg, hnint, (signed_bricks_truncation 10 95 120 hneg hnint).1⟩

/-- C4: against the trend, a one-brick move emits nothing and leaves the
carried state unchanged, a two-brick move emits exactly one reversal brick
with the flipped trend flag, in both directions. -/
theorem double_brick_reversal_threshold (bs : ℤ) (d : ℕ) (h l pc po : ℚ) :
    generate_next_bricks bs d h l pc po true (-1) = [] ∧
    (generate_next_bricks bs d h l pc po true (-2)).length = 1 ∧
    (∀ b ∈ generate_next_bricks bs d h l pc po true (-2), b.uptrend = false) ∧
    generate_next_bricks bs d h l pc po false 1 = [] ∧
    (generate_next_bricks bs d h l pc po false 2).length = 1 ∧
    (∀ b ∈ generate_next_bricks bs d h l pc po false 2, b.uptrend = true) ∧
    (∀ (last : Brick) (c : Candle) (cs : List Candle), step bs last c = [] →
      process bs last (c :: cs) = process bs last cs) := by
  have hA : generate_next_bricks bs d h l pc po true (-2) =
      [⟨d, po, max (min h (pc + (bs : ℚ))) po, po - (bs : ℚ), po - (bs : ℚ), false⟩] := by
    rw [generate_next_bricks, if_neg (by norm_num), if_pos ⟨rfl, by norm_num⟩]
    rw [show ((-2 : ℤ) + 1).natAbs = 1 from by decide]
    rw [reverse_to_downtrend, reverse_to_downtrend]
  have hB : generate_next_bricks bs d h l pc po false 2 =
      [⟨d, po, po + (bs : ℚ), min (max l (pc - (bs : ℚ))) po, po + (bs : ℚ), true⟩] := by
    rw [generate_next_bricks, if_neg (by norm_num), if_neg (by norm_num),
      if_neg (by norm_num), if_pos ⟨rfl, by norm_num⟩]
    rw [show ((2 : ℤ) - 1).natAbs = 1 from by decide]
    rw [reverse_to_uptrend, reverse_to_uptrend]
  refine ⟨?_, ?_, ?_, ?_, ?_, ?_, ?_⟩
  · rw [generate_next_bricks, if_neg (by norm_num), if_neg (by norm_num),
      if_neg (by norm_num), if_neg (by norm_num)]
  · rw [hA]; rfl
  · rw [hA]; intro b hb; rw [List.mem_singleton.mp hb]
  · rw [generate_next_bricks, if_neg (by norm_num), if_neg (by norm_num),
      if_neg (by norm_num), if_neg (by norm_num)]
  · rw [hB]; rfl
  · rw [hB]; intro b hb; rw [List.mem_singleton.mp hb]
  · intro last c cs hstep
    simp only [process, hstep, List.nil_append, List.getLastD_nil]

/-- C4 witness: the unchanged-state component applied to a concrete run where
the candle emits nothing. -/
theorem double_brick_reversal_threshold_witness :
    step 10 (⟨0, 90, 100, 90, 100, true⟩ : Brick) (⟨0, 100, 101, 99, 100⟩ : Candle) = [] ∧
    process 10 (⟨0, 90, 100, 90, 100, true⟩ : Brick) [⟨0, 100, 101, 99, 100⟩] =
      process 10 (⟨0, 90, 100, 90, 100, true⟩ : Brick) [] :=
  ⟨eval_step_noop,
    (double_brick_reversal_threshold 10 0 0 0 0 0).2.2.2.2.2.2 _ _ [] eval_step_noop⟩

/-- The claimed closed form of the i-th (0-based) brick of an uptrend
continuation: state advanced by `i` brick sizes, `open = last_close + i*bs`,
`close = open + bs`, `high = close`, and the candle low clamped to
`[prev_open_i - bs, prev_close_i]`. -/
def spec_uptrend_brick (bs : ℤ) (d : ℕ) (cl pc po : ℚ) (i : ℕ) : Brick :=
  ⟨d, pc + (i : ℚ) * (bs : ℚ), pc + ((i : ℚ) + 1) * (bs : ℚ),
    min (max cl (po + (i : ℚ) * (bs : ℚ) - (bs : ℚ))) (pc + (i : ℚ) * (bs : ℚ)),
    pc + ((i : ℚ) + 1) * (bs : ℚ), true⟩

lemma continue_uptrend_eq_map (bs : ℤ) (d : ℕ) (cl : ℚ) :
    ∀ (n : ℕ) (pc po : ℚ),
      continue_uptrend bs d cl pc po n =
        (List.range n).map (spec_uptrend_brick bs d cl pc po) := by
  intro n
  induction n with
  | zero => intro pc po; rfl
  | succ n ih =>
    intro pc po
    rw [List.range_succ_eq_map, List.map_cons, List.map_map]
    rw [continue_uptrend, ih (pc + (bs : ℚ)) (po + (bs : ℚ))]
    congr 1
    · rw [spec_uptrend_brick]
      push_cast
      norm_num
    · apply List.map_congr_left
      intro i _
      show spec_uptrend_brick bs d cl (pc + (bs : ℚ)) (po + (bs : ℚ)) i =
        spec_uptrend_brick bs d cl pc po (i + 1)
      rw [spec_uptrend_brick, spec_uptrend_brick]
      push_cast
      rw [show pc + (bs : ℚ) + (i : ℚ) * (bs : ℚ) = pc + ((i : ℚ) + 1) * (bs : ℚ) by ring]
      rw [show pc + (bs : ℚ) + ((i : ℚ) + 1) * (bs : ℚ) = pc + ((i : ℚ) + 1 + 1) * (bs : ℚ) by ring]
      rw [show po + (bs : ℚ) + (i : ℚ) * (bs : ℚ) - (bs : ℚ) =
        po + ((i : ℚ) + 1) * (bs : ℚ) - (bs : ℚ) by ring]

/-- C5: in an uptrend, a signed count of n >= 1 emits exactly n bricks, the
i-th one given by the claimed closed form, all carrying the candle's
timestamp; concretely, from last close 100 with brick size 10 a candle
closing at 125 emits exactly the bricks 100 to 110 and 110 to 120. -/
theorem continue_uptrend_functional (bs : ℤ) (d : ℕ) (h l pc po : ℚ)
    (n : ℤ) (hn : 1 ≤ n) :
    generate_next_bricks bs d h l pc po true n =
      (List.range n.toNat).map (spec_uptrend_brick bs d l pc po) ∧
    (generate_next_bricks bs d h l pc po true n).length = n.toNat ∧
    (∀ b ∈ generate_next_bricks bs d h l pc po true n,
      b.date = d ∧ b.uptrend = true ∧ b.high = b.close) ∧
    (generate_next_bricks 10 1 126 99 100 90 true
        (calculate_signed_num_of_bricks 10 125 100)).map (fun b => (b.open_, b.close)) =
      [((100 : ℚ), (110 : ℚ)), (110, 120)] := by
  have hgen : generate_next_bricks bs d h l pc po true n =
      continue_uptrend bs d l pc po n.natAbs := by
    rw [generate_next_bricks, if_pos ⟨rfl, hn⟩]
  have hnat : n.natAbs = n.toNat := by omega
  have hmap : generate_next_bricks bs d h l pc po true n =
      (List.range n.toNat).map (spec_uptrend_brick bs d l pc po) := by
    rw [hgen, hnat, continue_uptrend_eq_map]
  refine ⟨hmap, ?_, ?_, ?_⟩
  · rw [hmap, List.length_map, List.length_range]
  · intro b hb
    rw [hmap] at hb
    obtain ⟨i, _, rfl⟩ := List.mem_map.mp hb
    exact ⟨rfl, rfl, rfl⟩
  · rw [eval_gen_up]
    rfl

/-- C5 witness: the hypothesis n >= 1 and the concrete two-brick emission at
n = 2 with brick size 10. -/
theorem continue_uptrend_functional_witness :
    (1 : ℤ) ≤ 2 ∧
    (generate_next_bricks 10 1 126 99 100 90 true
        (calculate_signed_num_of_bricks 10 125 100)).map (fun b => (b.open_, b.close)) =
      [((100 : ℚ), (110 : ℚ)), (110, 120)] :=
  ⟨by norm_num, (continue_uptrend_functional 10 1 126 99 100 90 2 (by norm_num)).2.2.2⟩

/-- C6: every non-empty run is seeded by exactly one brick computed from the
first candle alone via the floor rule, always marked uptrend; concretely a
first candle closing at 107 with brick size 10 seeds open 90, close 100. -/
theorem seed_brick_spec (bs : ℤ) (c : Candle) (cs : List Candle) :
    (get_renko bs (c :: cs)).head? = some (get_initial_uptrend_renko_brick bs c) ∧
    (get_initial_uptrend_renko_brick bs c).close = (⌊c.close / (bs : ℚ)⌋ : ℚ) * (bs : ℚ) ∧
    (get_initial_uptrend_renko_brick bs c).open_ =
      (get_initial_uptrend_renko_brick bs c).close - (bs : ℚ) ∧
    (get_initial_uptrend_renko_brick bs c).high = (get_initial_uptrend_renko_brick bs c).close ∧
    (get_initial_uptrend_renko_brick bs c).low =
      min c.low ((get_initial_uptrend_renko_brick bs c).open_) ∧
    (get_initial_uptrend_renko_brick bs c).uptrend = true ∧
    (get_initial_uptrend_renko_brick bs c).date = c.date ∧
    get_initial_uptrend_renko_brick 10 (⟨0, 104, 108, 95, 107⟩ : Candle) =
      (⟨0, 90, 100, 90, 100, true⟩ : Brick) := by
  refine ⟨rfl, rfl, rfl, rfl, rfl, rfl, rfl, ?_⟩
  rw [get_initial_uptrend_renko_brick]
  norm_num

lemma signed_zero_on_seed (bs : ℤ) (hbs : 0 < bs) (x : ℚ) :
    calculate_signed_num_of_bricks bs x ((⌊x / (bs : ℚ)⌋ : ℚ) * (bs : ℚ)) = 0 := by
  have hb : (0 : ℚ) < (bs : ℚ) := by exact_mod_cast hbs
  have h1 : (x - (⌊x / (bs : ℚ)⌋ : ℚ) * (bs : ℚ)) / (bs : ℚ) =
      x / (bs : ℚ) - (⌊x / (bs : ℚ)⌋ : ℚ) := by
    field_simp
    ring
  rw [calculate_signed_num_of_bricks, h1]
  rw [truncQ_of_nonneg _ (sub_nonneg.mpr (Int.floor_le _))]
  rw [Int.floor_sub_int]
  simp

/-- C10: reprocessing the seed candle always yields a signed count of zero,
emits nothing and leaves the state unchanged, so the produced series equals
the one obtained by applying the transition rules only after the first
candle. -/
theorem first_candle_reprocessing_noop (bs : ℤ) (hbs : 0 < bs) :
    (∀ c : Candle, calculate_signed_num_of_bricks bs c.close
        ((⌊c.close / (bs : ℚ)⌋ : ℚ) * (bs : ℚ)) = 0) ∧
    (∀ c : Candle, step bs (get_initial_uptrend_renko_brick bs c) c = []) ∧
    (∀ candles : List Candle, get_renko bs candles = get_renko_skipping_first bs candles) := by
  have hstep : ∀ c : Candle, step bs (get_initial_uptrend_renko_brick bs c) c = [] := by
    intro c
    show generate_next_bricks bs c.date c.high c.low _ _ true
      (calculate_signed_num_of_bricks bs c.close ((⌊c.close / (bs : ℚ)⌋ : ℚ) * (bs : ℚ))) = []
    rw [signed_zero_on_seed bs hbs c.close]
    rw [generate_next_bricks, if_neg (by norm_num), if_neg (by norm_num),
      if_neg (by norm_num), if_neg (by norm_num)]
  refine ⟨fun c => signed_zero_on_seed bs hbs c.close, hstep, ?_⟩
  intro candles
  cases candles with
  | nil => rfl
  | cons c cs =>
    show get_initial_uptrend_renko_brick bs c ::
        process bs (get_initial_uptrend_renko_brick bs c) (c :: cs) =
      get_initial_uptrend_renko_brick bs c ::
        process bs (get_initial_uptrend_renko_brick bs c) cs
    congr 1
    simp only [process, hstep c, List.nil_append, List.getLastD_nil]

/-- C10 witness: the equivalence at brick size 10 on a concrete candle list. -/
theorem first_candle_reprocessing_noop_witness :
    (0 : ℤ) < 10 ∧
    get_renko 10 [⟨0, 100, 101, 99, 100⟩] = get_renko_skipping_first 10 [⟨0, 100, 101, 99, 100⟩] :=
  ⟨by norm_num, (first_candle_reprocessing_noop 10 (by norm_num)).2.2 [⟨0, 100, 101, 99, 100⟩]⟩

/-- C8: supplying both or neither brick-size argument makes construction fail
with the mutual-exclusivity error, independently of the instrument flag and
of any fetched candles (the check runs first); construction gets past this
check exactly when one argument is supplied. -/
theorem mutually_exclusive_brick_size (atr_of : Option (CandlespanEnum × ℕ)) (bsz : Option ℤ) :
    (∀ (v : Bool) (f : CandlespanEnum → List Candle),
        renko_init v f atr_of bsz = Except.error RenkoError.mutuallyExclusiveArgs ↔
          provided_count atr_of bsz ≠ 1) ∧
    (provided_count atr_of bsz ≠ 1 →
      ∀ (v v' : Bool) (f f' : CandlespanEnum → List Candle),
        renko_init v f atr_of bsz = renko_init v' f' atr_of bsz) := by
  by_cases hp : provided_count atr_of bsz = 1
  · refine ⟨fun v f => ?_, fun hq => absurd hp hq⟩
    rw [renko_init.eq_def, if_neg (by simpa using hp)]
    simp only [hp, ne_eq, not_true_eq_false, iff_false]
    rcases bsz with _ | b
    · rcases atr_of with _ | ⟨span, p⟩
      · simp [provided_count] at hp
      · cases v
        · simp
        · simp only [Bool.true_eq_false, if_neg]
          cases hval : get_brick_size_from_atr (f span) p with
          | none => simp [hval]
          | some b => simp [hval]
    · cases v
      · simp
      · simp
  · refine ⟨fun v f => ?_, fun _ v v' f f' => ?_⟩
    · rw [renko_init.eq_def, if_pos hp]
      simpa using hp
    · rw [renko_init.eq_def, if_pos hp, renko_init.eq_def, if_pos hp]

/-- C8 witness: with both arguments supplied the constructor fails with the
exclusivity error regardless of instrument validity or fetched data. -/
theorem mutually_exclusive_brick_size_witness :
    provided_count (some (CandlespanEnum.DAILY, 14)) (some 5) ≠ 1 ∧
    renko_init true (fun _ => []) (some (CandlespanEnum.DAILY, 14)) (some 5) =
      Except.error RenkoError.mutuallyExclusiveArgs ∧
    renko_init true (fun _ => []) (some (CandlespanEnum.DAILY, 14)) (some 5) =
      renko_init false (fun _ => [⟨0, 1, 1, 1, 1⟩]) (some (CandlespanEnum.DAILY, 14)) (some 5) :=
  ⟨by decide,
    ((mutually_exclusive_brick_size (some (CandlespanEnum.DAILY, 14)) (some 5)).1
      true (fun _ => [])).mpr (by decide),
    (mutually_exclusive_brick_size (some (CandlespanEnum.DAILY, 14)) (some 5)).2
      (by decide) true false (fun _ => []) (fun _ => [⟨0, 1, 1, 1, 1⟩])⟩

/-- C9: when the brick size is derived from ATR, construction resolves it to
three times the Python rounding of the last ATR value over the reference
span's candles with the given period count. -/
theorem brick_size_from_atr_spec (f : CandlespanEnum → List Candle) (span : CandlespanEnum)
    (periods : ℕ) (v : ℚ)
    (hatr : (atr (f span) periods).getLast? = some (some v)) :
    get_brick_size_from_atr (f span) periods = some (3 * pyRound v) ∧
    renko_init true f (some (span, periods)) none = Except.ok (3 * pyRound v) := by
  have h1 : get_brick_size_from_atr (f span) periods = some (3 * pyRound v) := by
    rw [get_brick_size_from_atr, hatr]
  refine ⟨h1, ?_⟩
  rw [renko_init.eq_def, if_neg (by simp [provided_count]), if_neg (by simp)]
  simp [h1]

lemma eval_atr_last :
    (atr [⟨0, 10, 12, 8, 10⟩, ⟨1, 13, 14, 9, 13⟩, ⟨2, 12, 15, 11, 12⟩] 2).getLast? =
      some (some (17 / 4)) := by
  have htr : tr_list [(⟨0, 10, 12, 8, 10⟩ : Candle), ⟨1, 13, 14, 9, 13⟩, ⟨2, 12, 15, 11, 12⟩] =
      [none, some 5, some 4] := by
    rw [tr_list, tr_list_from, tr_list_from, tr_list_from]
    norm_num [true_range]
  rw [atr, ewm_mean, htr]
  rw [ewm_go, ewm_go, ewm_go, ewm_go]
  norm_num

lemma eval_pyRound : pyRound (17 / 4 : ℚ) = 4 := by
  have hfl : ⌊(17 / 4 : ℚ)⌋ = 4 := by
    rw [Int.floor_eq_iff]
    constructor
    · norm_num
    · norm_num
  rw [pyRound, hfl, if_pos (by norm_num)]

/-- C9 witness: a concrete three-candle reference series with ATR period 2;
the last ATR value is 17/4, so the resolved brick size is 3 * 4 = 12. -/
theorem brick_size_from_atr_spec_witness :
    (atr [⟨0, 10, 12, 8, 10⟩, ⟨1, 13, 14, 9, 13⟩, ⟨2, 12, 15, 11, 12⟩] 2).getLast? =
      some (some (17 / 4)) ∧
    renko_init true (fun _ => [⟨0, 10, 12, 8, 10⟩, ⟨1, 13, 14, 9, 13⟩, ⟨2, 12, 15, 11, 12⟩])
      (some (CandlespanEnum.DAILY, 2)) none = Except.ok 12 := by
  refine ⟨eval_atr_last, ?_⟩
  have h := (brick_size_from_atr_spec
    (fun _ => [⟨0, 10, 12, 8, 10⟩, ⟨1, 13, 14, 9, 13⟩, ⟨2, 12, 15, 11, 12⟩])
    CandlespanEnum.DAILY 2 (17 / 4) eval_atr_last).2
  rw [h, eval_pyRound]
  rfl

/-- C7 witness: the chaining invariant on a concrete run. -/
theorem renko_monotonic_chaining_witness :
    List.Chain' ChainedOpen (get_renko 10 [⟨0, 100, 101, 99, 100⟩]) :=
  renko_monotonic_chaining 10 [⟨0, 100, 101, 99, 100⟩]

/-- C3 amended witness: the amended close-step invariant on the concrete
counterexample run itself. -/
theorem renko_close_step_amended_witness :
    List.Chain' (CloseStep 10) (get_renko 10 cexCandles) :=
  renko_close_step_amended 10 cexCandles

/-- C6 witness: the concrete seed scenario (close 107, brick size 10). -/
theorem seed_brick_spec_witness :
    get_initial_uptrend_renko_brick 10 (⟨0, 104, 108, 95, 107⟩ : Candle) =
      (⟨0, 90, 100, 90, 100, true⟩ : Brick) :=
  (seed_brick_spec 10 ⟨0, 104, 108, 95, 107⟩ []).2.2.2.2.2.2.2
